import Mathlib

/-!
Verification of the GROVER fine-tuning tutorial notebook
(`GROVER_Tutorial.ipynb`). Each Python function or code cell that the
properties concern is embedded below as an executable Lean definition,
and the properties are proved as theorems about those definitions.
-/

namespace Grover

/-! ## Position mapper (`create_mapper`)

Python source:
```
def create_mapper(tokenized_chr):
    mapper = []
    for i in range(len(tokenized_chr)):
        for e in range(len(tokenized_chr[i])):
            mapper.append(i)
    return mapper
```
The outer loop walks the token list by index `i`; the inner loop appends
`i` once per nucleotide of token `i`.
-/

def create_mapper_from (startIdx : Nat) : List (List α) → List Nat
  | [] => []
  | t :: ts => List.replicate t.length startIdx ++ create_mapper_from (startIdx + 1) ts

def create_mapper (tokenized_chr : List (List α)) : List Nat :=
  create_mapper_from 0 tokenized_chr

/-- The spec's description of the construction, stated in its own words:
the concatenation, in token order, of `len(token_i)` copies of index `i`. -/
def spec_forward_expansion (tokenized_chr : List (List α)) : List Nat :=
  (List.range tokenized_chr.length).flatMap
    (fun i => List.replicate (tokenized_chr.getD i []).length i)

/-- A concrete chromosome whose tokens have lengths `[3, 5, 2]`. -/
def exampleChr : List (List Nat) :=
  [[10, 11, 12], [20, 21, 22, 23, 24], [30, 31]]

/-! ## Motif window expansion

Python source (cell "center of motif"):
```
center_of_motif = data["start"] + (data["end"] - data["start"])//2
data["start"] = center_of_motif - 500
data["end"] = center_of_motif + 500
```
Python `//` is floor division, embedded as `Int.fdiv`.
-/

def center_of_motif (s e : Int) : Int := s + (e - s).fdiv 2

def expand_window (s e : Int) : Int × Int :=
  (center_of_motif s e - 500, center_of_motif s e + 500)

/-! ## Class-label derivation

Python source:
```
annotations["class"] = annotations[9].apply(lambda x: 1 if x != "." else 0)
```
-/

def class_label (x : String) : Nat := if x ≠ "." then 1 else 0

/-! ## Train/validation/test split

Python source:
```
train_data = grover_dataset.sample(frac=0.8, random_state=42)
test_data = grover_dataset.drop(train_data.index)
val_data = test_data.sample(frac=0.5, random_state=42)
test_data = test_data.drop(val_data.index)
```
The random choice of rows is abstracted as an arbitrary subset of the
stated size. Modelled from the spec: `DataFrame.sample(frac=f)` draws
`round(f * n)` rows (pandas computes the count by rounding `f * n` to the
nearest integer, ties to even). `0.8 * n` is never a tie, so
`sample_size_80` is plain nearest-integer rounding; `0.5 * n` ties exactly
when `n` is odd, resolved to the even neighbour in `sample_size_50`.
-/

def sample_size_80 (n : Nat) : Nat := (8 * n + 5) / 10

def sample_size_50 (n : Nat) : Nat :=
  if n % 2 = 0 then n / 2
  else if (n / 2) % 2 = 0 then n / 2 else n / 2 + 1

/-! ## Region-to-token slicing with Python list semantics

Python source (the per-chromosome loop):
```
tokenized_starts = data.loc[data["chr"] == chrom]["start"].apply(lambda x: mapper[x])
tokenized_ends = data.loc[data["chr"] == chrom]["end"].apply(lambda x: mapper[x])
for start, end in zip(tokenized_starts, tokenized_ends):
    tokenized_seqs.append(tokenized_chr[start:end])
```
`mapper[x]` uses Python indexing: a negative index `x` with
`-len(mapper) <= x` wraps around to `mapper[len(mapper) + x]`; an index
outside `[-len, len)` raises IndexError, embedded as `none`.
`tokenized_chr[start:end]` is a clamping slice.
-/

def pyIndex (l : List α) (i : Int) : Option α :=
  if 0 ≤ i then l.get? i.toNat
  else if 0 ≤ (l.length : Int) + i then l.get? ((l.length : Int) + i).toNat
  else none

def pySlice (l : List α) (a b : Nat) : List α := (l.take b).drop a

def region_to_tokens (tokenized_chr : List (List α)) (mapper : List Nat)
    (s e : Int) : Option (List (List α)) :=
  match pyIndex mapper s, pyIndex mapper e with
  | some ts, some te => some (pySlice tokenized_chr ts te)
  | _, _ => none

/-! ## Checkpoint saving in the training loop

Python source:
```
best_val_loss = val_loop(grover, val_loader, device, criterion)
for epoch in range(nr_epochs):
    train_loop(...)
    val_loss = val_loop(grover, val_loader, device, criterion)
    if val_loss < best_val_loss:
        best_val_loss = val_loss
        grover_tokenizer.save_pretrained("GROVER_finetuned/")
        grover.save_pretrained("GROVER_finetuned/")
```
Losses are embedded as rationals; `checkpoint_saves baseline losses`
returns, per epoch, whether the checkpoint directory was written.
-/

def checkpoint_saves (best : ℚ) : List ℚ → List Bool
  | [] => []
  | v :: rest =>
    (if v < best then true else false) ::
      checkpoint_saves (if v < best then v else best) rest

/-! ## Sigmoid-output thresholding in validation/test loops

Python source (identical in `val_loop` and `test_loop`):
```
for probs_i in probs:
    for j in range(len(probs_i)):
        probs_i[j] = 1 if probs_i[j] > 0.5 else 0
```
Probabilities are embedded as rationals; the in-place update over a batch
is the elementwise map below.
-/

def hard_prediction (p : ℚ) : ℚ := if p > 1/2 then 1 else 0

def threshold_batch (probs : List (List ℚ)) : List (List ℚ) :=
  probs.map (fun row => row.map hard_prediction)

/-! ## Dataset encoding layer

Python source (`GroverDataSet.__getitem__`):
```
tokenizer_res = self.BERTtokenizer.encode_plus(seq, add_special_tokens=True,
    padding="max_length", return_tensors="pt", max_length=self.max_length,
    truncation=True)
```
Modelled from the spec: the external BERT tokenizer's `encode_plus` is not
part of this repository; per the spec it "encodes each sequence with
special boundary tokens, pads/truncates to a fixed maximum length". The
comment in the source gives the id scheme `[CLS] ... [SEP]` ->
`[2, ..., 3]`; `[PAD]` is id 0. Truncation keeps the first
`max_length - 2` content tokens so that the two boundary tokens fit.
-/

def CLS_id : Nat := 2
def SEP_id : Nat := 3
def PAD_id : Nat := 0

def encode_plus (maxLength : Nat) (seq : List Nat) : List Nat :=
  let truncated := seq.take (maxLength - 2)
  let withSpecial := CLS_id :: truncated ++ [SEP_id]
  withSpecial ++ List.replicate (maxLength - withSpecial.length) PAD_id

def is_special (t : Nat) : Bool := t == CLS_id || t == SEP_id || t == PAD_id

def strip_special (ids : List Nat) : List Nat :=
  ids.filter (fun t => ! is_special t)

/-! ## Supporting lemmas -/

lemma create_mapper_from_length (s : Nat) (ts : List (List α)) :
    (create_mapper_from s ts).length = (ts.map List.length).sum := by
  induction ts generalizing s with
  | nil => rfl
  | cons t ts ih =>
    simp [create_mapper_from, ih]

lemma mem_create_mapper_from_le (s : Nat) (ts : List (List α)) :
    ∀ x ∈ create_mapper_from s ts, s ≤ x := by
  induction ts generalizing s with
  | nil => intro x hx; simp [create_mapper_from] at hx
  | cons t ts ih =>
    intro x hx
    simp only [create_mapper_from, List.mem_append] at hx
    rcases hx with hx | hx
    · exact (List.eq_of_mem_replicate hx).ge
    · exact le_of_lt (Nat.lt_of_lt_of_le (Nat.lt_succ_self s) (ih (s + 1) x hx))

lemma sorted_le_replicate (n s : Nat) :
    List.Sorted (· ≤ ·) (List.replicate n s) := by
  induction n with
  | zero => simp
  | succ n ih =>
    rw [List.replicate_succ, List.sorted_cons]
    exact ⟨fun b hb => (List.eq_of_mem_replicate hb).ge, ih⟩

lemma create_mapper_from_sorted (s : Nat) (ts : List (List α)) :
    (create_mapper_from s ts).Sorted (· ≤ ·) := by
  induction ts generalizing s with
  | nil => simp [create_mapper_from]
  | cons t ts ih =>
    simp only [create_mapper_from]
    rw [List.Sorted, List.pairwise_append]
    refine ⟨sorted_le_replicate _ _, ih (s + 1), ?_⟩
    intro x hx y hy
    have hx' : x = s := List.eq_of_mem_replicate hx
    have hy' : s + 1 ≤ y := mem_create_mapper_from_le (s + 1) ts y hy
    omega

lemma create_mapper_from_eq_flatMap (s : Nat) (ts : List (List α)) :
    create_mapper_from s ts =
      (List.range ts.length).flatMap
        (fun i => List.replicate (ts.getD i []).length (s + i)) := by
  induction ts generalizing s with
  | nil => rfl
  | cons t ts ih =>
    simp only [create_mapper_from, List.length_cons, List.range_succ_eq_map,
      List.flatMap_cons, List.flatMap_map]
    congr 1
    rw [ih (s + 1)]
    apply List.flatMap_congr
    intro i _
    simp [Nat.add_comm, Nat.add_assoc, Nat.add_left_comm]

lemma pyIndex_nonneg (l : List Nat) (i : Int) (h0 : 0 ≤ i)
    (h : i < l.length) : pyIndex l i = some (l.getD i.toNat 0) := by
  have hlt : i.toNat < l.length := by omega
  rw [pyIndex, if_pos h0, List.getD_eq_get _ _ hlt, List.get?_eq_get hlt]

lemma checkpoint_saves_getD (b : ℚ) (losses : List ℚ) (i : Nat)
    (h : i < losses.length) :
    ((checkpoint_saves b losses).getD i false = true ↔
      losses.getD i 0 < (losses.take i).foldl min b) := by
  induction losses generalizing b i with
  | nil => simp at h
  | cons v rest ih =>
    cases i with
    | zero =>
      simp only [checkpoint_saves, List.getD_cons_zero, List.take_zero,
        List.foldl_nil]
      split <;> simp_all
    | succ i =>
      have hbest : (if v < b then v else b) = min b v := by
        rcases lt_or_le v b with hvb | hvb
        · rw [if_pos hvb, min_eq_right hvb.le]
        · rw [if_neg (not_lt.mpr hvb), min_eq_left hvb]
      simp only [checkpoint_saves, List.getD_cons_succ, List.take_succ_cons,
        List.foldl_cons, hbest]
      exact ih _ _ (by simpa using h)

lemma lt_foldl_min_iff (x b : ℚ) (l : List ℚ) :
    x < l.foldl min b ↔ x < b ∧ ∀ y ∈ l, x < y := by
  induction l generalizing b with
  | nil => simp
  | cons a l ih =>
    rw [List.foldl_cons, ih, lt_min_iff]
    simp only [List.mem_cons]
    constructor
    · rintro ⟨⟨hb, ha⟩, hl⟩
      exact ⟨hb, by rintro y (rfl | hy); exacts [ha, hl y hy]⟩
    · rintro ⟨hb, h⟩
      exact ⟨⟨hb, h a (Or.inl rfl)⟩, fun y hy => h y (Or.inr hy)⟩

lemma filter_not_special_replicate (n : Nat) :
    (List.replicate n PAD_id).filter (fun t => ! is_special t) = [] := by
  induction n with
  | zero => rfl
  | succ n ih =>
    rw [List.replicate_succ, List.filter_cons]
    simp only [is_special]
    exact ih

/-! ## Claims -/

/-- C1: for every chromosome token list, the mapper built by `create_mapper`
has length equal to the sum of the lengths of the tokens (the chromosome's
total nucleotide count), and its values read in index order are
monotonically non-decreasing. -/
theorem C1_mapper_length_and_monotone (tokenized_chr : List (List α)) :
    (create_mapper tokenized_chr).length = (tokenized_chr.map List.length).sum ∧
    (create_mapper tokenized_chr).Sorted (· ≤ ·) :=
  ⟨create_mapper_from_length 0 tokenized_chr, create_mapper_from_sorted 0 tokenized_chr⟩

/-- C2: `create_mapper` is exactly the forward expansion: for every input
list of tokens the output is the concatenation, in token order, of
`len(token_i)` copies of the index `i`; the empty input yields the empty
mapper, and for tokens of lengths `[3, 5, 2]` the output is
`[0,0,0,1,1,1,1,1,2,2]`, with value `1` at position `4`. -/
theorem C2_mapper_is_forward_expansion :
    (∀ (α : Type) (tokenized_chr : List (List α)),
        create_mapper tokenized_chr = spec_forward_expansion tokenized_chr) ∧
    create_mapper ([] : List (List Nat)) = [] ∧
    create_mapper exampleChr = [0, 0, 0, 1, 1, 1, 1, 1, 2, 2] ∧
    (create_mapper exampleChr).getD 4 0 = 1 := by
  refine ⟨?_, rfl, by decide, by decide⟩
  intro α t
  rw [create_mapper, create_mapper_from_eq_flatMap, spec_forward_expansion]
  simp only [Nat.zero_add]

/-- C3: for every motif row with integer `start <= end`, after the
window-expansion step (`start := center - 500`, `end := center + 500` with
`center = start + (end - start) // 2`) the expanded window width
`end - start` is exactly 1000 nucleotides. -/
theorem C3_expanded_window_width (s e : Int) (h : s ≤ e) :
    (expand_window s e).2 - (expand_window s e).1 = 1000 := by
  unfold expand_window
  ring

/-- Witness for C3 at the concrete motif `start = 0`, `end = 10`. -/
theorem C3_expanded_window_width_witness :
    (0 : Int) ≤ 10 ∧ (expand_window 0 10).2 - (expand_window 0 10).1 = 1000 :=
  ⟨by decide, C3_expanded_window_width 0 10 (by decide)⟩

/-- C4: for every row of the annotation table, the derived class label is
`0` if and only if the peak column equals the placeholder string `"."`,
and `1` for every other value of that column. -/
theorem C4_class_label_placeholder (x : String) :
    (class_label x = 0 ↔ x = ".") ∧ (x ≠ "." → class_label x = 1) := by
  constructor
  · unfold class_label
    split <;> simp_all
  · intro h
    simp [class_label, h]

/-- Witness for C4 at the peak value `"chr1"` and the placeholder `"."`. -/
theorem C4_class_label_placeholder_witness :
    class_label "chr1" = 1 ∧ class_label "." = 0 :=
  ⟨(C4_class_label_placeholder "chr1").2 (by decide),
   (C4_class_label_placeholder ".").1.mpr rfl⟩

/-- C5: the train/validation/test split produced by sampling 80% for train,
then half of the remainder for validation and dropping it from test, yields
three pairwise disjoint partitions whose sizes sum to the total sample
count, with proportions 80/10/10 up to rounding (each decile bound stated
additively: `10·|train| ∈ [8·N - 4, 8·N + 5]`, `10·|val|, 10·|test| ∈
[N - 7, N + 7]`). -/
theorem C5_split_partition (S train val test : Finset ℕ)
    (htrain_sub : train ⊆ S)
    (htrain_card : train.card = sample_size_80 S.card)
    (hval_sub : val ⊆ S \ train)
    (hval_card : val.card = sample_size_50 (S \ train).card)
    (htest : test = (S \ train) \ val) :
    Disjoint train val ∧ Disjoint train test ∧ Disjoint val test ∧
    train.card + val.card + test.card = S.card ∧
    (8 * S.card ≤ 10 * train.card + 4 ∧ 10 * train.card ≤ 8 * S.card + 5) ∧
    (S.card ≤ 10 * val.card + 7 ∧ 10 * val.card ≤ S.card + 7) ∧
    (S.card ≤ 10 * test.card + 7 ∧ 10 * test.card ≤ S.card + 7) := by
  have hR : (S \ train).card = S.card - train.card := Finset.card_sdiff htrain_sub
  have htest_card : test.card = (S \ train).card - val.card := by
    rw [htest]; exact Finset.card_sdiff hval_sub
  have htN : train.card ≤ S.card := Finset.card_le_card htrain_sub
  have hvR : val.card ≤ (S \ train).card := Finset.card_le_card hval_sub
  have h50 : 2 * val.card = (S \ train).card ∨
      2 * val.card = (S \ train).card + 1 ∨
      2 * val.card + 1 = (S \ train).card := by
    unfold sample_size_50 at hval_card
    split at hval_card
    · omega
    · split at hval_card <;> omega
  unfold sample_size_80 at htrain_card
  refine ⟨Finset.disjoint_sdiff.mono_right hval_sub, ?_, ?_, ?_⟩
  · exact Finset.disjoint_sdiff.mono_right (htest ▸ Finset.sdiff_subset)
  · exact htest ▸ Finset.disjoint_sdiff
  · omega

/-- Witness for C5: the 10-element dataset `{0,…,9}` split into
`train = {0,…,7}`, `val = {8}`, `test = {9}`. -/
theorem C5_split_partition_witness :
    (Finset.range 8 ⊆ Finset.range 10 ∧
     (Finset.range 8).card = sample_size_80 (Finset.range 10).card ∧
     ({8} : Finset ℕ) ⊆ Finset.range 10 \ Finset.range 8 ∧
     ({8} : Finset ℕ).card = sample_size_50 (Finset.range 10 \ Finset.range 8).card ∧
     ({9} : Finset ℕ) = (Finset.range 10 \ Finset.range 8) \ {8}) ∧
    (Disjoint (Finset.range 8) ({8} : Finset ℕ) ∧
     Disjoint (Finset.range 8) ({9} : Finset ℕ) ∧
     Disjoint ({8} : Finset ℕ) ({9} : Finset ℕ) ∧
     (Finset.range 8).card + ({8} : Finset ℕ).card + ({9} : Finset ℕ).card =
       (Finset.range 10).card ∧
     (8 * (Finset.range 10).card ≤ 10 * (Finset.range 8).card + 4 ∧
      10 * (Finset.range 8).card ≤ 8 * (Finset.range 10).card + 5) ∧
     ((Finset.range 10).card ≤ 10 * ({8} : Finset ℕ).card + 7 ∧
      10 * ({8} : Finset ℕ).card ≤ (Finset.range 10).card + 7) ∧
     ((Finset.range 10).card ≤ 10 * ({9} : Finset ℕ).card + 7 ∧
      10 * ({9} : Finset ℕ).card ≤ (Finset.range 10).card + 7)) :=
  ⟨⟨by decide, by decide, by decide, by decide, by decide⟩,
   C5_split_partition (Finset.range 10) (Finset.range 8) {8} {9}
     (by decide) (by decide) (by decide) (by decide) (by decide)⟩

/-- C6: for every motif whose expanded start and end both lie within
`[0, mapper length)`, the region-to-token slicer returns the token sublist
`tokenized_chr[mapper[start] : mapper[end]]`, and under this precondition
the lookup takes the in-bounds branch and cannot fail. -/
theorem C6_slicer_in_bounds (tokenized_chr : List (List α)) (mapper : List Nat)
    (s e : Int) (hs0 : 0 ≤ s) (hs : s < mapper.length)
    (he0 : 0 ≤ e) (he : e < mapper.length) :
    region_to_tokens tokenized_chr mapper s e =
      some (pySlice tokenized_chr (mapper.getD s.toNat 0) (mapper.getD e.toNat 0)) := by
  rw [region_to_tokens, pyIndex_nonneg mapper s hs0 hs, pyIndex_nonneg mapper e he0 he]

/-- Witness for C6: the example chromosome with token lengths `[3,5,2]`,
expanded region `[0, 9)`, whose mapper boundaries are tokens `0` and `2`. -/
theorem C6_slicer_in_bounds_witness :
    ((0 : Int) ≤ 0 ∧ (0 : Int) < (create_mapper exampleChr).length ∧
     (0 : Int) ≤ 9 ∧ (9 : Int) < (create_mapper exampleChr).length) ∧
    region_to_tokens exampleChr (create_mapper exampleChr) 0 9 =
      some (pySlice exampleChr ((create_mapper exampleChr).getD (0 : Int).toNat 0)
        ((create_mapper exampleChr).getD (9 : Int).toNat 0)) :=
  ⟨⟨by decide, by decide, by decide, by decide⟩,
   C6_slicer_in_bounds exampleChr (create_mapper exampleChr) 0 9
     (by decide) (by decide) (by decide) (by decide)⟩

/-- C10 (implicit): the boundary lookup `mapper[x]` is never guarded
against negative positions; for every `x` with `-len(mapper) ≤ x < 0` the
lookup does not fail but returns `mapper[len(mapper) + x]`, and on the
example chromosome a motif with negative expanded start makes the slicer
silently return an empty token sequence instead of raising an
out-of-bounds error. -/
theorem C10_negative_index_wraps :
    (∀ (mapper : List Nat) (x : Int), -(mapper.length : Int) ≤ x → x < 0 →
        pyIndex mapper x =
          some (mapper.getD ((mapper.length : Int) + x).toNat 0)) ∧
    region_to_tokens exampleChr (create_mapper exampleChr) (-2) 3 = some [] := by
  constructor
  · intro mapper x hge hlt
    have h0 : ¬ (0 ≤ x) := by omega
    have hlt' : ((mapper.length : Int) + x).toNat < mapper.length := by omega
    rw [pyIndex, if_neg h0, if_pos (by omega), List.getD_eq_get _ _ hlt',
      List.get?_eq_get hlt']
  · decide

/-- Witness for C10: on the example chromosome's mapper (length 10), the
lookup at `-2` wraps to index `8`. -/
theorem C10_negative_index_wraps_witness :
    (-( (create_mapper exampleChr).length : Int) ≤ -2 ∧ (-2 : Int) < 0) ∧
    pyIndex (create_mapper exampleChr) (-2) =
      some ((create_mapper exampleChr).getD
        (((create_mapper exampleChr).length : Int) + -2).toNat 0) :=
  ⟨⟨by decide, by decide⟩,
   C10_negative_index_wraps.1 (create_mapper exampleChr) (-2) (by decide) (by decide)⟩

/-- C7: across the whole training run, the fine-tuned model/tokenizer
directory is written in an epoch if and only if that epoch's validation
loss is strictly lower than every previously observed validation loss,
including the pre-training baseline. -/
theorem C7_checkpoint_iff_improvement (baseline : ℚ) (losses : List ℚ)
    (i : Nat) (h : i < losses.length) :
    ((checkpoint_saves baseline losses).getD i false = true ↔
      (losses.getD i 0 < baseline ∧
        ∀ prev ∈ losses.take i, losses.getD i 0 < prev)) := by
  rw [checkpoint_saves_getD baseline losses i h, lt_foldl_min_iff]

/-- Witness for C7: baseline loss `1`, epoch losses `[1/2, 3/4, 1/4]`;
epoch 2's loss `1/4` improves on all previous, so the model is saved. -/
theorem C7_checkpoint_iff_improvement_witness :
    2 < ([1/2, 3/4, 1/4] : List ℚ).length ∧
    ((checkpoint_saves 1 [1/2, 3/4, 1/4]).getD 2 false = true ↔
      (([1/2, 3/4, 1/4] : List ℚ).getD 2 0 < 1 ∧
        ∀ prev ∈ ([1/2, 3/4, 1/4] : List ℚ).take 2,
          ([1/2, 3/4, 1/4] : List ℚ).getD 2 0 < prev)) :=
  ⟨by decide, C7_checkpoint_iff_improvement 1 [1/2, 3/4, 1/4] 2 (by decide)⟩

/-- C8: in the validation and test loops, every sigmoid output probability
is mapped to a hard prediction by the 0.5 threshold: a sample is predicted
negative (0) if its probability is lower than 0.5 and positive (1) if its
probability is higher than 0.5, for every element of every batch. -/
theorem C8_threshold_half (probs : List (List ℚ)) (i j : Nat)
    (hi : i < probs.length) (hj : j < (probs.getD i []).length) :
    ((probs.getD i []).getD j 0 < 1/2 →
        ((threshold_batch probs).getD i []).getD j 0 = 0) ∧
    (1/2 < (probs.getD i []).getD j 0 →
        ((threshold_batch probs).getD i []).getD j 0 = 1) := by
  have hrow : (threshold_batch probs).getD i [] =
      (probs.getD i []).map hard_prediction := by
    rw [threshold_batch, List.getD, List.getD, List.get?_map]
    rcases h : probs.get? i with _ | row
    · rw [List.get?_eq_none] at h
      omega
    · rfl
  rcases hx : (probs.getD i []).get? j with _ | x
  · rw [List.get?_eq_none] at hx
    omega
  have hxd : (probs.getD i []).getD j 0 = x := by rw [List.getD, hx]; rfl
  have hout : ((threshold_batch probs).getD i []).getD j 0 = hard_prediction x := by
    rw [hrow, List.getD, List.get?_map, hx]; rfl
  rw [hxd, hout]
  constructor
  · intro hlt
    rw [hard_prediction, if_neg (by exact not_lt.mpr hlt.le)]
  · intro hgt
    rw [hard_prediction, if_pos hgt]

/-- Witness for C8: the single batch `[[3/10, 7/10]]`; probability `3/10`
is below the threshold so its prediction is 0. -/
theorem C8_threshold_half_witness :
    (0 < ([[3/10, 7/10]] : List (List ℚ)).length ∧
     0 < (([[3/10, 7/10]] : List (List ℚ)).getD 0 []).length) ∧
    ((([[3/10, 7/10]] : List (List ℚ)).getD 0 []).getD 0 0 < 1/2 →
        ((threshold_batch [[3/10, 7/10]]).getD 0 []).getD 0 0 = 0) ∧
    (1/2 < (([[3/10, 7/10]] : List (List ℚ)).getD 0 []).getD 0 0 →
        ((threshold_batch [[3/10, 7/10]]).getD 0 []).getD 0 0 = 1) :=
  ⟨⟨by decide, by decide⟩,
   C8_threshold_half [[3/10, 7/10]] 0 0 (by decide) (by decide)⟩

/-- C9: for every token sequence, encoding it (adding special boundary
tokens, padding to the fixed maximum length, truncating) and then
stripping the special tokens recovers the original token ids, except in
the regions removed by truncation or filled by padding: the result is
exactly the first `max_length - 2` original ids. -/
theorem C9_encode_strip_roundtrip (maxLength : Nat) (seq : List Nat)
    (h : ∀ t ∈ seq, ¬ is_special t) :
    strip_special (encode_plus maxLength seq) = seq.take (maxLength - 2) := by
  have hkept : (seq.take (maxLength - 2)).filter (fun t => ! is_special t) =
      seq.take (maxLength - 2) := by
    apply List.filter_eq_self.mpr
    intro a ha
    have := h a (List.take_subset _ _ ha)
    simpa using this
  rw [strip_special, encode_plus]
  simp [List.filter_cons, List.filter_append, filter_not_special_replicate,
    hkept, show is_special CLS_id = true from rfl,
    show is_special SEP_id = true from rfl]

/-- Witness for C9: the sequence `[11, 12, 13, 14]` with `max_length = 5`
round-trips to its first three ids. -/
theorem C9_encode_strip_roundtrip_witness :
    (∀ t ∈ ([11, 12, 13, 14] : List Nat), ¬ is_special t) ∧
    strip_special (encode_plus 5 [11, 12, 13, 14]) =
      ([11, 12, 13, 14] : List Nat).take (5 - 2) :=
  ⟨by decide, C9_encode_strip_roundtrip 5 [11, 12, 13, 14] (by decide)⟩

end Grover
